import Mathlib

/-!
Shallow embedding of `src/server.py` (a small web-crawling MCP server) and
proofs about its specified behaviour.

The Python code's effects are made explicit:
* the HTTP fetch + HTML parse of a URL is an oracle `Env.fetch` returning
  either an exception message or the parsed page data the code reads
  (converted markdown, the `<title>` element, the description `<meta>` tag);
* the filesystem is a list of `(path, content)` pairs threaded through the
  functions; a write failure (`os.makedirs`/`open`/`write` raising) is an
  oracle `Env.writeErr`;
* `datetime.datetime.now().isoformat()` is an oracle `Env.now`.

Library functions the source calls (`str.replace`, `str.split`, `str.strip`,
`urllib.parse.urlparse`, `os.path.join`, `os.path.relpath`, `os.path.abspath`,
`os.path.normpath`, `Nat`-to-decimal-string printing) are modelled by
structurally recursive functions over `List Char` so that every definition
evaluates inside the kernel.
-/

namespace Crawl

/-! ### String primitives (models of Python string methods) -/

/-- Whitespace characters removed by Python `str.strip()`. -/
def pySpace (c : Char) : Bool :=
  c = ' ' || c = '\t' || c = '\n' || c = '\r' || c = '\x0b' || c = '\x0c'

/-- Model of Python `str.strip()`: drop leading and trailing whitespace. -/
def pyStrip (s : String) : String :=
  ⟨((s.data.dropWhile pySpace).reverse.dropWhile pySpace).reverse⟩

/-- Helper for `pyReplace`.  The first argument is the number of characters
still to drop because they belong to an occurrence that was already
replaced; when it is zero we test for a fresh occurrence of the pattern. -/
def replaceAux (pat rep : List Char) : Nat → List Char → List Char
  | _, [] => []
  | skip + 1, _ :: cs => replaceAux pat rep skip cs
  | 0, c :: cs =>
    if pat.isPrefixOf (c :: cs) then
      rep ++ replaceAux pat rep (pat.length - 1) cs
    else
      c :: replaceAux pat rep 0 cs

/-- Model of Python `str.replace` for a non-empty pattern: every
non-overlapping occurrence (leftmost first) of `pat` is replaced by `rep`. -/
def pyReplace (s pat rep : String) : String :=
  ⟨replaceAux pat.data rep.data 0 s.data⟩

/-- Model of Python `sub in s` (substring test), on character lists. -/
def containsAux (pat : List Char) : List Char → Bool
  | [] => pat.isEmpty
  | c :: cs => pat.isPrefixOf (c :: cs) || containsAux pat cs

/-- Model of Python `sub in s` on strings. -/
def pyContains (s sub : String) : Bool := containsAux sub.data s.data

/-- Model of Python `s.startswith(pre)`. -/
def pyStartsWith (s pre : String) : Bool := pre.data.isPrefixOf s.data

/-- Model of Python `s.endswith(suf)`. -/
def pyEndsWith (s suf : String) : Bool := suf.data.isSuffixOf s.data

/-- Model of Python `s.split(c)` for a single-character separator: splits at
every occurrence, keeping empty pieces (`"".split(c) = [""]`). -/
def splitCh (c : Char) : List Char → List (List Char)
  | [] => [[]]
  | x :: xs =>
    match splitCh c xs with
    | [] => [[]]
    | g :: gs => if x = c then [] :: g :: gs else (x :: g) :: gs

/-- String wrapper for `splitCh`. -/
def pySplit (s : String) (c : Char) : List String :=
  (splitCh c s.data).map (fun l => ⟨l⟩)

/-- Split a character list at the first occurrence of `c`, if any. -/
def splitFirst (c : Char) : List Char → Option (List Char × List Char)
  | [] => none
  | x :: xs =>
    if x = c then some ([], xs)
    else (splitFirst c xs).map (fun p => (x :: p.1, p.2))

/-- Render a Python value that is either `None` or a string, as an f-string
does (`None` prints as `"None"`). -/
def pyOptStr (t : Option String) : String :=
  match t with
  | none => "None"
  | some s => s

/-! ### `urllib.parse.urlparse`

Only the `netloc` and `path` components are consumed by the source, so the
model returns just those.  It follows CPython's `urlsplit`: strip a valid
`scheme:` prefix, read the netloc after `//` up to the first `/`, `?` or `#`,
then drop the fragment (first `#`) and the query (first `?`). -/

/-- Characters allowed in a URL scheme (after the leading letter). -/
def schemeChar (c : Char) : Bool :=
  c.isAlpha || c.isDigit || c = '+' || c = '-' || c = '.'

/-- Drop a leading `scheme:` if the part before the first `:` is a non-empty
scheme (leading letter, then scheme characters), as CPython's `urlsplit` does. -/
def dropScheme (u : List Char) : List Char :=
  match splitFirst ':' u with
  | none => u
  | some (pre, rest) =>
    match pre with
    | [] => u
    | p :: ps => if p.isAlpha && (p :: ps).all schemeChar then rest else u

/-- The parts of a parsed URL used by the source. -/
structure UrlParts where
  netloc : String
  path : String
deriving DecidableEq, Repr

/-- Model of `urllib.parse.urlparse`, restricted to the fields the source
reads (`netloc` and `path`). -/
def urlparse (url : String) : UrlParts :=
  let u := dropScheme url.data
  let np :=
    if ['/', '/'].isPrefixOf u then
      let rest := u.drop 2
      (rest.takeWhile (fun c => !(c = '/' || c = '?' || c = '#')),
       rest.dropWhile (fun c => !(c = '/' || c = '?' || c = '#')))
    else ([], u)
  let u1 := match splitFirst '#' np.2 with
    | some p => p.1
    | none => np.2
  let u2 := match splitFirst '?' u1 with
    | some p => p.1
    | none => u1
  ⟨⟨np.1⟩, ⟨u2⟩⟩

/-! ### Path derivation (`batch_save` lines 280–298) -/

/-- Path derivation from a URL, mirroring `batch_save`: the directory
components under the output root (domain directory first, then all URL path
segments except the last) and the filename stem.  The domain directory is the
netloc with `:` replaced by `_`; the stem is the last non-empty path segment
with every occurrence of `.html` and then of `.php` removed (Python
`str.replace` removes all occurrences), defaulting to `index` when there are
no segments or the result is empty. -/
def derivePath (url : String) : List String × String :=
  let parsed := urlparse url
  let domain_dir := pyReplace parsed.netloc ":" "_"
  let parts0 := (pySplit parsed.path '/').filter (fun p => p ≠ "")
  let path_parts := if parts0 = [] then ["index"] else parts0
  let filename0 := pyReplace (pyReplace (path_parts.getLastD "index") ".html" "") ".php" ""
  let filename := if filename0 = "" then "index" else filename0
  (domain_dir :: path_parts.dropLast, filename)

/-- Stated from the words of the specification's claim about the filename
stem: the last non-empty path segment with only a literal trailing `.html`
or `.php` suffix stripped (the rest of the segment unchanged), `index` when
there is no segment or the stripped result is empty.  To be compared with
`derivePath`, which is taken from the source. -/
def specStem (url : String) : String :=
  let parts := (pySplit (urlparse url).path '/').filter (fun p => p ≠ "")
  let seg := parts.getLastD "index"
  let s :=
    if pyEndsWith seg ".html" then (⟨seg.data.take (seg.data.length - 5)⟩ : String)
    else if pyEndsWith seg ".php" then (⟨seg.data.take (seg.data.length - 4)⟩ : String)
    else seg
  if s = "" then "index" else s

/-- Stated from the words of the amended claim: the stem is the last
non-empty path segment with every occurrence of `.html` removed and then
every occurrence of `.php` removed, `index` when there is no segment or the
result is empty. -/
def amendedStem (url : String) : String :=
  let parts := (pySplit (urlparse url).path '/').filter (fun p => p ≠ "")
  let seg := parts.getLastD "index"
  let s := pyReplace (pyReplace seg ".html" "") ".php" ""
  if s = "" then "index" else s

/-- One step of `os.path.join` (POSIX): an absolute component restarts the
path, otherwise a `/` is inserted unless the path so far is empty or already
ends with `/`. -/
def pjoin2 (path b : String) : String :=
  if pyStartsWith b "/" then b
  else if path = "" || pyEndsWith path "/" then path ++ b
  else path ++ "/" ++ b

/-- Model of `os.path.join` folded over a list of components. -/
def pjoin (base : String) (comps : List String) : String :=
  comps.foldl pjoin2 base

/-! ### Decimal printing of naturals

`batch_save` builds collision suffixes with `f"{filename}_{counter}.md"`;
the counter prints via `Nat.repr`.  The next lemmas show `Nat.repr` is
injective, which the collision-resolution termination argument needs. -/

/-- Decimal digit characters of `n`, most significant first; reference
function used to reason about `Nat.repr`. -/
def decChars (n : Nat) : List Char :=
  if _h : n < 10 then [Nat.digitChar n]
  else decChars (n / 10) ++ [Nat.digitChar (n % 10)]
termination_by n
decreasing_by exact Nat.div_lt_self (by omega) (by omega)

theorem toDigitsCore_eq (fuel n : Nat) (ds : List Char) (h : n < fuel) :
    Nat.toDigitsCore 10 fuel n ds = decChars n ++ ds := by
  induction fuel generalizing n ds with
  | zero => omega
  | succ fuel ih =>
    rw [Nat.toDigitsCore]
    by_cases h10 : n < 10
    · have : n / 10 = 0 := Nat.div_eq_of_lt h10
      simp only [this, if_pos rfl]
      rw [decChars, dif_pos h10, Nat.mod_eq_of_lt h10]
      rfl
    · have hne : ¬ n / 10 = 0 := by omega
      rw [if_neg hne, ih (n / 10) (Nat.digitChar (n % 10) :: ds) (by omega)]
      conv_rhs => rw [decChars]
      rw [dif_neg h10]
      simp

theorem repr_eq_decChars (n : Nat) : Nat.repr n = ⟨decChars n⟩ := by
  show (Nat.toDigits 10 n).asString = _
  rw [Nat.toDigits, toDigitsCore_eq (n + 1) n [] (by omega)]
  simp [List.asString]

/-- Numeric value of a list of decimal digit characters. -/
def decVal (l : List Char) : Nat := l.foldl (fun a c => 10 * a + (c.toNat - 48)) 0

theorem decVal_append (l : List Char) (c : Char) :
    decVal (l ++ [c]) = 10 * decVal l + (c.toNat - 48) := by
  simp [decVal]

theorem decVal_decChars (n : Nat) : decVal (decChars n) = n := by
  induction n using Nat.strong_induction_on with
  | _ n ih =>
    by_cases h10 : n < 10
    · rw [decChars, dif_pos h10]
      have : (Nat.digitChar n).toNat - 48 = n := by interval_cases n <;> rfl
      simp [decVal, this]
    · rw [decChars, dif_neg h10, decVal_append]
      have hlt : n / 10 < n := Nat.div_lt_self (by omega) (by omega)
      rw [ih (n / 10) hlt]
      have hm : n % 10 < 10 := Nat.mod_lt _ (by omega)
      have : (Nat.digitChar (n % 10)).toNat - 48 = n % 10 := by
        interval_cases h : (n % 10) <;> rfl
      rw [this]
      omega

theorem repr_injective : Function.Injective Nat.repr := by
  intro m n h
  rw [repr_eq_decChars, repr_eq_decChars] at h
  have hdata : decChars m = decChars n := congrArg String.data h
  have := congrArg decVal hdata
  rwa [decVal_decChars, decVal_decChars] at this

/-! ### Collision-safe filenames (`batch_save` lines 301–306)

The source probes `stem.md`, `stem_1.md`, `stem_2.md`, … and takes the first
name that does not exist.  `candidate` is the name probed at counter `k`;
`resolveCollision` is the smallest-index free candidate, which is exactly
what the `while os.path.exists` loop computes. -/

/-- The filesystem: a list of `(path, content)` pairs.  `fsHas` models
`os.path.exists`. -/
def fsHas (fs : List (String × String)) (p : String) : Bool :=
  fs.any (fun e => e.1 = p)

/-- The suffix appended to the stem at probe counter `k`: `.md` for the first
probe, `_k.md` afterwards (from `f"{filename}.md"` and
`f"{filename}_{counter}.md"`). -/
def numSuffix (k : Nat) : String :=
  if k = 0 then ".md" else "_" ++ Nat.repr k ++ ".md"

/-- The file path probed at counter `k`:
`os.path.join(file_dir, filename + suffix)`. -/
def candidate (dir stem : String) (k : Nat) : String :=
  pjoin2 dir (stem ++ numSuffix k)

theorem str_append_cancel_left {a x y : String} (h : a ++ x = a ++ y) : x = y := by
  apply String.ext
  have := congrArg String.data h
  simp only [String.data_append] at this
  exact List.append_cancel_left this

theorem numSuffix_injective : Function.Injective numSuffix := by
  intro j k h
  unfold numSuffix at h
  by_cases hj : j = 0 <;> by_cases hk : k = 0
  · omega
  · rw [if_pos hj, if_neg hk] at h
    have := congrArg String.data h
    simp only [String.data_append] at this
    exact absurd (congrArg List.head? this) (by simp [String.data])
  · rw [if_neg hj, if_pos hk] at h
    have := congrArg String.data h
    simp only [String.data_append] at this
    exact absurd (congrArg List.head? this) (by simp [String.data])
  · rw [if_neg hj, if_neg hk] at h
    have hd := congrArg String.data h
    simp only [String.data_append] at hd
    have hd2 := List.append_cancel_left (List.append_cancel_right hd)
    exact repr_injective (String.ext hd2)

theorem head?_append_numSuffix (f : String) (j k : Nat) :
    ((f ++ numSuffix j).data.head? = some '/') ↔
      ((f ++ numSuffix k).data.head? = some '/') := by
  have hns : ∀ m, (numSuffix m).data.head? ≠ some '/' := by
    intro m
    unfold numSuffix
    by_cases hm : m = 0
    · simp [hm, String.data]
    · rw [if_neg hm]
      simp [String.data_append, String.data]
  cases hf : f.data with
  | nil =>
    simp only [String.data_append, hf, List.nil_append]
    constructor <;> intro h <;> [exact absurd h (hns j); exact absurd h (hns k)]
  | cons c cs => simp [String.data_append, hf]

theorem pyStartsWith_slash (s : String) :
    pyStartsWith s "/" = decide (s.data.head? = some '/') := by
  unfold pyStartsWith
  cases h : s.data with
  | nil => simp [String.data]
  | cons c cs =>
    simp only [String.data, List.isPrefixOf, List.head?, Option.some.injEq]
    rw [beq_eq_decide, Bool.and_true]
    exact decide_eq_decide.mpr eq_comm

theorem candidate_injective (dir stem : String) :
    Function.Injective (candidate dir stem) := by
  intro j k h
  unfold candidate pjoin2 at h
  have hsw : pyStartsWith (stem ++ numSuffix j) "/" =
      pyStartsWith (stem ++ numSuffix k) "/" := by
    rw [pyStartsWith_slash, pyStartsWith_slash]
    exact decide_eq_decide.mpr (head?_append_numSuffix stem j k)
  apply numSuffix_injective
  apply str_append_cancel_left (a := stem)
  by_cases h1 : pyStartsWith (stem ++ numSuffix j) "/" = true
  · have h1k : pyStartsWith (stem ++ numSuffix k) "/" = true := by rw [← hsw]; exact h1
    rwa [if_pos h1, if_pos h1k] at h
  · have h1k : ¬ pyStartsWith (stem ++ numSuffix k) "/" = true := by rw [← hsw]; exact h1
    rw [if_neg h1, if_neg h1k] at h
    by_cases h2 : (decide (dir = "") || pyEndsWith dir "/") = true
    · rw [if_pos h2, if_pos h2] at h
      exact str_append_cancel_left h
    · rw [if_neg h2, if_neg h2] at h
      exact str_append_cancel_left (a := dir ++ "/") h

/-- Some probed name is always free: the probed names are pairwise distinct
and the filesystem is finite, so the `while os.path.exists` loop terminates. -/
theorem exists_free (fs : List (String × String)) (dir stem : String) :
    ∃ k, fsHas fs (candidate dir stem k) = false := by
  by_contra hc
  push_neg at hc
  have hmem : ∀ k, candidate dir stem k ∈ (fs.map Prod.fst).toFinset := by
    intro k
    have := hc k
    rw [Bool.ne_false_iff] at this
    unfold fsHas at this
    rw [List.any_eq_true] at this
    obtain ⟨e, he, heq⟩ := this
    simp only [decide_eq_true_eq] at heq
    rw [List.mem_toFinset, List.mem_map]
    exact ⟨e, he, heq⟩
  have hsub : (Finset.range ((fs.map Prod.fst).toFinset.card + 1)).image
      (candidate dir stem) ⊆ (fs.map Prod.fst).toFinset := by
    intro x hx
    rw [Finset.mem_image] at hx
    obtain ⟨k, _, rfl⟩ := hx
    exact hmem k
  have hcard := Finset.card_le_card hsub
  rw [Finset.card_image_of_injective _ (candidate_injective dir stem),
    Finset.card_range] at hcard
  omega

/-- The path chosen by the `filepath = …; while os.path.exists(filepath): …`
loop: the first candidate (in counter order `0, 1, 2, …`) that does not
exist in the filesystem. -/
def resolveCollision (fs : List (String × String)) (dir stem : String) : String :=
  candidate dir stem (Nat.find (exists_free fs dir stem))

/-! ### Pages, environment, outcomes -/

/-- A bs4 `<title>` Tag as observed by the source.  `truthy` is the Python
truth value of the Tag object: in bs4, a Tag's truth value is the truth value
of its list of children (`Tag.__len__` is `len(self.contents)`), so an empty
element is falsy.  `string` models the `.string` property, which is `None`
unless the element has exactly one (string-bearing) child. -/
structure TitleTag where
  truthy : Bool
  string : Option String
deriving DecidableEq, Repr

/-- A bs4 `<meta>` Tag as observed by the source; `content` is the value of
its `content` attribute, if present. -/
structure MetaTag where
  truthy : Bool
  content : Option String
deriving DecidableEq, Repr

/-- What the source reads out of a successfully fetched and parsed page:
`h2t.handle(str(soup))`, `soup.title`, and
`soup.find('meta', {'name': 'description'})`. -/
structure Page where
  markdown : String
  title : Option TitleTag
  descTag : Option MetaTag
deriving DecidableEq

/-- The effect oracles of the program: fetching+parsing a URL (which may
raise, yielding the exception text), a possible exception while creating
directories or writing a given file path, the current timestamp, and the
value `get_filepath()` would return (used when no explicit path is given). -/
structure Env where
  fetch : String → Except String Page
  writeErr : String → Option String
  now : String
  fallbackBase : String

/-- A per-URL outcome dictionary appended to `results`: either
`{url, status: "saved", path, title}` or `{url, status: "error", error}`.
The title may be Python `None` (hence `Option String`). -/
inductive SaveOutcome where
  | saved (url : String) (path : String) (title : Option String)
  | error (url : String) (msg : String)
deriving DecidableEq, Repr

/-- The `url` field of an outcome. -/
def SaveOutcome.url : SaveOutcome → String
  | .saved u _ _ => u
  | .error u _ => u

/-- The `status` field of an outcome. -/
def SaveOutcome.statusStr : SaveOutcome → String
  | .saved _ _ _ => "saved"
  | .error _ _ => "error"

/-- The `urlparse(result["url"]).netloc` used for index grouping. -/
def SaveOutcome.domain (r : SaveOutcome) : String := (urlparse r.url).netloc

/-- The metadata preamble written before the converted body. -/
def metadataBlock (title : Option String) (url netloc description now : String) : String :=
  "---\ntitle: " ++ pyOptStr title ++ "\nurl: " ++ url ++ "\ndomain: " ++ netloc ++
    "\ndescription: " ++ description ++ "\ndate_saved: " ++ now ++ "\n---\n\n"

/-- The `title` variable: `soup.title.string if soup.title else filename`. -/
def titleOf (t : Option TitleTag) (filename : String) : Option String :=
  match t with
  | some tag => if tag.truthy then tag.string else some filename
  | none => some filename

/-- The `description` variable:
`description.get('content', '') if description else ""`. -/
def descriptionOf (m : Option MetaTag) : String :=
  match m with
  | some tag => if tag.truthy then tag.content.getD "" else ""
  | none => ""

/-- The body of `batch_save`'s per-URL `try`/`except`: fetch and convert the
page, derive the path, resolve collisions, write the file; any failure
(fetch/parse via `Env.fetch`, filesystem via `Env.writeErr`) becomes an
error outcome and leaves the filesystem unchanged. -/
def processUrl (env : Env) (base : String) (fs : List (String × String))
    (url : String) : SaveOutcome × List (String × String) :=
  match env.fetch url with
  | .error e => (.error url e, fs)
  | .ok page =>
    let parsed := urlparse url
    let dp := derivePath url
    let file_dir := pjoin base dp.1
    let filename := dp.2
    let filepath := resolveCollision fs file_dir filename
    match env.writeErr filepath with
    | some e => (.error url e, fs)
    | none =>
      let title := titleOf page.title filename
      let full_content :=
        metadataBlock title url parsed.netloc (descriptionOf page.descTag) env.now ++
          page.markdown
      (.saved url filepath title, (filepath, full_content) :: fs)

/-- The `for url in urls` loop: process each URL in order, threading the
filesystem, collecting one outcome per URL. -/
def processList (env : Env) (base : String) :
    List (String × String) → List String → List SaveOutcome × List (String × String)
  | fs, [] => ([], fs)
  | fs, u :: rest =>
    let pr := processUrl env base fs u
    let prs := processList env base pr.2 rest
    (pr.1 :: prs.1, prs.2)

/-! ### Index building (`batch_save` lines 343–366) -/

/-- Model of `os.path.relpath(p, start)` restricted to the only case the
pipeline produces: a path lying under `start`.  Other paths are returned
unchanged. -/
def relpath (p start : String) : String :=
  if pyStartsWith p (start ++ "/") then ⟨p.data.drop (start ++ "/").data.length⟩
  else p

/-- One `- [title](relative_path)` index line (error outcomes never reach
this point). -/
def indexLine (base : String) : SaveOutcome → String
  | .saved _ p t => "- [" ++ pyOptStr t ++ "](" ++ relpath p base ++ ")\n"
  | .error _ _ => ""

/-- `by_domain[domain].append(result)` on a `defaultdict(list)` represented
as an insertion-ordered association list. -/
def addGroup (d : String) (r : SaveOutcome) :
    List (String × List SaveOutcome) → List (String × List SaveOutcome)
  | [] => [(d, [r])]
  | g :: gs => if g.1 = d then (g.1, g.2 ++ [r]) :: gs else g :: addGroup d r gs

/-- The grouping loop: saved outcomes only, grouped by domain into a
`defaultdict(list)` (first-seen key order, per-key insertion order). -/
def groupByDomain (results : List SaveOutcome) : List (String × List SaveOutcome) :=
  results.foldl
    (fun acc r => if r.statusStr = "saved" then addGroup r.domain r acc else acc) []

/-- One rendered domain section: heading plus one line per entry. -/
def renderGroup (base : String) (g : String × List SaveOutcome) : String :=
  "\n## " ++ g.1 ++ "\n\n" ++ String.join (g.2.map (indexLine base))

/-- The index document text built by the index section of `batch_save`. -/
def buildIndex (results : List SaveOutcome) (base : String) : String :=
  "# Crawled Content Index\n\n" ++
    String.join ((groupByDomain results).map (renderGroup base))

/-! ### `batch_save` top level -/

/-- The dynamic shape of `batch_save`'s `urls` argument: a list of URLs, a
dict (carrying, when present, the keys of its `links` entry — the
`map_links()` output shape), or any other value (e.g. a number). -/
inductive BatchInput where
  | list (urls : List String)
  | dict (links : Option (List String))
  | other

/-- The returned dictionary: either the top-level input-shape error or the
`status: "success"` result. -/
inductive BatchResult where
  | inputError (error : String)
  | success (processed : List SaveOutcome) (base_path : String)
      (total_saved : Nat) (total_errors : Nat)
deriving DecidableEq, Repr

/-- The `processed` field (empty for the input-error result). -/
def BatchResult.processedList : BatchResult → List SaveOutcome
  | .inputError _ => []
  | .success ps _ _ _ => ps

/-- The top-level error message of `batch_save` for a bad input shape. -/
def inputErrorMsg : String :=
  "urls must be either a list of URLs or map_links() output dictionary"

/-- Input normalisation (lines 258–265): a dict with a `links` key is
replaced by the list of that entry's keys; a dict without one, or any
non-list value, is the input-shape error. -/
def normalizeInput : BatchInput → Except String (List String)
  | .list us => .ok us
  | .dict (some ks) => .ok ks
  | .dict none => .error inputErrorMsg
  | .other => .error inputErrorMsg

/-- Output-root resolution (line 271): `path if path else get_filepath()`;
an absent or empty `path` argument falls back to the `get_filepath()`
oracle. -/
def basePathOf (env : Env) (path : Option String) : String :=
  match path with
  | some p => if p ≠ "" then p else env.fallbackBase
  | none => env.fallbackBase

/-- `batch_save(urls, path)`.  Returns the result dictionary and the final
filesystem.  The index file is written at `os.path.join(base_path,
"index.md")`; a failure there is only printed and changes nothing in the
returned result. -/
def batch_save (env : Env) (input : BatchInput) (path : Option String)
    (fs : List (String × String)) : BatchResult × List (String × String) :=
  match normalizeInput input with
  | .error msg => (.inputError msg, fs)
  | .ok urls =>
    let base_path := basePathOf env path
    let pr := processList env base_path fs urls
    let index_path := pjoin2 base_path "index.md"
    let fs2 :=
      match env.writeErr index_path with
      | some _ => pr.2
      | none => (index_path, buildIndex pr.1 base_path) :: pr.2
    (.success pr.1 base_path
      (pr.1.countP (fun r => r.statusStr = "saved"))
      (pr.1.countP (fun r => r.statusStr = "error")), fs2)

/-! ### `map_links` -/

/-- The result of `map_links`: a links dictionary (insertion-ordered
association list) or an error message. -/
inductive LinksResult where
  | success (links : List (String × String))
  | error (error : String)
deriving DecidableEq, Repr

/-- The link filter of `map_links`: the href starts with `http` and contains
neither `youtube.com` nor `youtu.be`. -/
def isEligible (href : String) : Bool :=
  pyStartsWith href "http" && !pyContains href "youtube.com" && !pyContains href "youtu.be"

/-- Python dict assignment `d[k] = v`: overwrite in place if the key exists
(keeping its insertion position), else append. -/
def dictInsert (d : List (String × String)) (k v : String) : List (String × String) :=
  if d.any (fun e => e.1 = k) then d.map (fun e => if e.1 = k then (k, v) else e)
  else d ++ [(k, v)]

/-- Dictionary lookup `d[k]` on the association-list representation: the
value at the first (hence, by `dictInsert`'s construction, only) entry with
the given key. -/
def lookupD (d : List (String × String)) (k : String) : Option String :=
  (d.find? (fun e => e.1 = k)).map (fun e => e.2)

/-- The value stored for a link: `a.text.strip() or href`. -/
def linkValue (href text : String) : String :=
  if pyStrip text = "" then href else pyStrip text

/-- The link-collection loop of `map_links` over the page's anchors (pairs of
href value and anchor text, in document order). -/
def linksOf (anchors : List (String × String)) : List (String × String) :=
  anchors.foldl
    (fun links a =>
      if isEligible a.1 then dictInsert links a.1 (linkValue a.1 a.2) else links) []

/-- `map_links(url)`: the fetch+parse of the page is abstracted as an oracle
giving either the anchors carrying an href (with their text) or the raised
exception's message, which the `except` branch returns as an error result. -/
def map_links (fetchResult : Except String (List (String × String))) : LinksResult :=
  match fetchResult with
  | .ok anchors => .success (linksOf anchors)
  | .error e => .error e

/-! ### `get_filepath` -/

/-- Join a list of path components with `/`. -/
def joinSep : List String → String
  | [] => ""
  | [x] => x
  | x :: y :: rest => x ++ "/" ++ joinSep (y :: rest)

/-- Model of POSIX `os.path.normpath`. -/
def normpath (p : String) : String :=
  if p = "" then "." else
  let initialSlashes : Nat :=
    if pyStartsWith p "//" && !pyStartsWith p "///" then 2
    else if pyStartsWith p "/" then 1
    else 0
  let newComps := (pySplit p '/').foldl
    (fun acc comp =>
      if comp = "" || comp = "." then acc
      else if comp ≠ ".." || (initialSlashes = 0 && acc = []) ||
          (acc ≠ [] && acc.getLastD "" = "..") then acc ++ [comp]
      else acc.dropLast) []
  let out := (⟨List.replicate initialSlashes '/'⟩ : String) ++ joinSep newComps
  if out = "" then "." else out

/-- Model of `os.path.abspath`: join with the working directory, then
normalise. -/
def abspath (cwd p : String) : String := normpath (pjoin2 cwd p)

/-- The configuration read by `get_filepath`: the `OUTPUT_PATH` environment
variable, the result of `mcp.get_config()` (which may raise; on success, the
value it holds under `default_output_path`, if any), and the working
directory (for `os.path.abspath`). -/
structure ConfigEnv where
  output_path : Option String
  config : Except String (Option String)
  cwd : String

/-- Model of `os.makedirs(p, exist_ok=…)` on a set of existing directories:
creating an existing directory raises unless `exist_ok` is set. -/
def makedirs (dirs : List String) (p : String) (exist_ok : Bool) :
    Except String (List String) :=
  if dirs.contains p && !exist_ok then .error "FileExistsError"
  else .ok (if dirs.contains p then dirs else p :: dirs)

/-- The fallback chain after a missing/empty `OUTPUT_PATH`:
`config.get("default_output_path", "./output")`, or `"./output"` if reading
the config raises. -/
def fallbackPath (env : ConfigEnv) : String :=
  match env.config with
  | .ok v => v.getD "./output"
  | .error _ => "./output"

/-- `get_filepath()`: resolve the output path, ensure the directory exists
(`exist_ok=True`), return the absolute path; also returns the updated
directory set. -/
def get_filepath (env : ConfigEnv) (dirs : List String) :
    Except String (String × List String) :=
  let path :=
    match env.output_path with
    | some p => if p ≠ "" then p else fallbackPath env
    | none => fallbackPath env
  match makedirs dirs path true with
  | .error e => .error e
  | .ok dirs2 => .ok (abspath env.cwd path, dirs2)

/-! ### Closed form of the index grouping

`groupByDomain` above is the source's left fold over a `defaultdict`.  The
next definitions state the grouping the specification describes — saved
outcomes only, keyed by domain in first-seen order, each key listing its
outcomes in original relative order — to be proved equal to the fold. -/

/-- First occurrence of each element, in first-seen order (the key order of
a `defaultdict` filled by a left-to-right loop). -/
def firstSeen : List String → List String
  | [] => []
  | d :: rest => d :: firstSeen (rest.filter (fun x => x ≠ d))
termination_by l => l.length
decreasing_by
  simp only [List.length_cons]
  exact Nat.lt_succ_of_le (List.length_filter_le _ _)

/-- The saved outcomes, in their original order. -/
def savedOnly (rs : List SaveOutcome) : List SaveOutcome :=
  rs.filter (fun r => r.statusStr = "saved")

/-- The grouping stated from the specification's words: the domains of the
saved outcomes in first-seen order, each carrying the saved outcomes of that
domain in their original relative order. -/
def groupSpec (rs : List SaveOutcome) : List (String × List SaveOutcome) :=
  (firstSeen ((savedOnly rs).map SaveOutcome.domain)).map
    (fun d => (d, (savedOnly rs).filter (fun r => r.domain = d)))

/-! ### Concrete fixtures used by witnesses -/

/-- A page with an ordinary title element. -/
def pageA : Page :=
  { markdown := "A", title := some ⟨true, some "Title A"⟩, descTag := none }

/-- Environment in which `https://a.com/x` fetches `pageA` and every other
URL raises `boom`; writes never fail. -/
def envA : Env where
  fetch := fun u => if u = "https://a.com/x" then .ok pageA else .error "boom"
  writeErr := fun _ => none
  now := "2024-01-01T00:00:00"
  fallbackBase := "/out"

/-- A page whose `<title>` element is empty: no children, so the bs4 Tag is
falsy and its `.string` is `None`. -/
def pageEmptyTitle : Page :=
  { markdown := "body", title := some ⟨false, none⟩, descTag := none }

/-- Environment in which every URL fetches `pageEmptyTitle`. -/
def envEmptyTitle : Env where
  fetch := fun _ => .ok pageEmptyTitle
  writeErr := fun _ => none
  now := "2024-01-01T00:00:00"
  fallbackBase := "/out"

/-- A page whose `<title>` element has children but a `None` `.string`
(e.g. `<title>a<b>c</b></title>`): the Tag is truthy, the string is null. -/
def pageNullTitle : Page :=
  { markdown := "body", title := some ⟨true, none⟩, descTag := none }

/-- Environment in which every URL fetches `pageNullTitle`. -/
def envNullTitle : Env where
  fetch := fun _ => .ok pageNullTitle
  writeErr := fun _ => none
  now := "2024-01-01T00:00:00"
  fallbackBase := "/out"

/-! ## Helper lemmas -/

theorem fsHas_nil (p : String) : fsHas [] p = false := rfl

theorem fsHas_cons (q c p : String) (fs : List (String × String)) :
    fsHas ((q, c) :: fs) p = (decide (q = p) || fsHas fs p) := by
  simp [fsHas]

theorem resolveCollision_fresh (fs : List (String × String)) (dir stem : String) :
    fsHas fs (resolveCollision fs dir stem) = false :=
  Nat.find_spec (exists_free fs dir stem)

theorem numSuffix_zero : numSuffix 0 = ".md" := rfl

theorem numSuffix_one : numSuffix 1 = "_1.md" := by decide

theorem numSuffix_two : numSuffix 2 = "_2.md" := by decide

theorem candidate_zero (dir stem : String) :
    candidate dir stem 0 = pjoin2 dir (stem ++ ".md") := rfl

theorem candidate_one (dir stem : String) :
    candidate dir stem 1 = pjoin2 dir (stem ++ "_1.md") := by
  unfold candidate
  rw [numSuffix_one]

theorem candidate_two (dir stem : String) :
    candidate dir stem 2 = pjoin2 dir (stem ++ "_2.md") := by
  unfold candidate
  rw [numSuffix_two]

theorem resolveCollision_zero (fs : List (String × String)) (dir stem : String)
    (h : fsHas fs (candidate dir stem 0) = false) :
    resolveCollision fs dir stem = candidate dir stem 0 := by
  unfold resolveCollision
  rw [Nat.find_eq_zero (exists_free fs dir stem) |>.mpr h]

theorem processUrl_fetch_error (env : Env) (base : String)
    (fs : List (String × String)) (u e : String) (h : env.fetch u = .error e) :
    processUrl env base fs u = (.error u e, fs) := by
  unfold processUrl
  rw [h]

theorem processUrl_write_error (env : Env) (base : String)
    (fs : List (String × String)) (u e : String) (page : Page)
    (hf : env.fetch u = .ok page)
    (hw : env.writeErr (resolveCollision fs (pjoin base (derivePath u).1)
      (derivePath u).2) = some e) :
    processUrl env base fs u = (.error u e, fs) := by
  unfold processUrl
  rw [hf]
  simp only [hw]

theorem processUrl_write_ok (env : Env) (base : String)
    (fs : List (String × String)) (u : String) (page : Page)
    (hf : env.fetch u = .ok page)
    (hw : env.writeErr (resolveCollision fs (pjoin base (derivePath u).1)
      (derivePath u).2) = none) :
    processUrl env base fs u =
      (.saved u (resolveCollision fs (pjoin base (derivePath u).1) (derivePath u).2)
        (titleOf page.title (derivePath u).2),
       (resolveCollision fs (pjoin base (derivePath u).1) (derivePath u).2,
        metadataBlock (titleOf page.title (derivePath u).2) u (urlparse u).netloc
          (descriptionOf page.descTag) env.now ++ page.markdown) :: fs) := by
  unfold processUrl
  rw [hf]
  simp only [hw]

theorem processUrl_url (env : Env) (base : String) (fs : List (String × String))
    (u : String) : (processUrl env base fs u).1.url = u := by
  cases hf : env.fetch u with
  | error e => rw [processUrl_fetch_error env base fs u e hf]; rfl
  | ok page =>
    cases hw : env.writeErr (resolveCollision fs (pjoin base (derivePath u).1)
        (derivePath u).2) with
    | some e => rw [processUrl_write_error env base fs u e page hf hw]; rfl
    | none => rw [processUrl_write_ok env base fs u page hf hw]; rfl

theorem processList_nil (env : Env) (base : String) (fs : List (String × String)) :
    processList env base fs [] = ([], fs) := rfl

theorem processList_cons (env : Env) (base : String) (fs : List (String × String))
    (u : String) (rest : List String) :
    processList env base fs (u :: rest) =
      ((processUrl env base fs u).1 ::
        (processList env base (processUrl env base fs u).2 rest).1,
       (processList env base (processUrl env base fs u).2 rest).2) := rfl

theorem processList_map_url (env : Env) (base : String) :
    ∀ (urls : List String) (fs : List (String × String)),
      (processList env base fs urls).1.map SaveOutcome.url = urls := by
  intro urls
  induction urls with
  | nil => intro fs; rfl
  | cons u rest ih =>
    intro fs
    rw [processList_cons]
    simp only [List.map_cons, processUrl_url, ih]

theorem processUrl_error_state (env : Env) (base : String)
    (fs : List (String × String)) (u : String)
    (h : (processUrl env base fs u).1.statusStr = "error") :
    (processUrl env base fs u).2 = fs := by
  cases hf : env.fetch u with
  | error e => rw [processUrl_fetch_error env base fs u e hf]
  | ok page =>
    cases hw : env.writeErr (resolveCollision fs (pjoin base (derivePath u).1)
        (derivePath u).2) with
    | some e => rw [processUrl_write_error env base fs u e page hf hw]
    | none =>
      rw [processUrl_write_ok env base fs u page hf hw] at h
      simp [SaveOutcome.statusStr] at h

theorem processUrl_saved_path (env : Env) (base : String)
    (fs : List (String × String)) (url u p : String) (t : Option String)
    (h : (processUrl env base fs url).1 = .saved u p t) :
    p = resolveCollision fs (pjoin base (derivePath url).1) (derivePath url).2 := by
  cases hf : env.fetch url with
  | error e =>
    rw [processUrl_fetch_error env base fs url e hf] at h
    exact absurd h (by simp)
  | ok page =>
    cases hw : env.writeErr (resolveCollision fs (pjoin base (derivePath url).1)
        (derivePath url).2) with
    | some e =>
      rw [processUrl_write_error env base fs url e page hf hw] at h
      exact absurd h (by simp)
    | none =>
      rw [processUrl_write_ok env base fs url page hf hw] at h
      simp only [SaveOutcome.saved.injEq] at h
      exact h.2.1.symm

theorem candidate_ne (dir stem : String) {j k : Nat} (h : j ≠ k) :
    candidate dir stem j ≠ candidate dir stem k :=
  fun he => h (candidate_injective dir stem he)

theorem resolveCollision_find_eq (fs : List (String × String)) (dir stem : String)
    (n : Nat) (hn : fsHas fs (candidate dir stem n) = false)
    (hlt : ∀ m, m < n → fsHas fs (candidate dir stem m) = true) :
    resolveCollision fs dir stem = candidate dir stem n := by
  unfold resolveCollision
  have : Nat.find (exists_free fs dir stem) = n := by
    rw [Nat.find_eq_iff]
    exact ⟨hn, fun m hm => by rw [hlt m hm]; simp⟩
  rw [this]

/-! ## Claim theorems -/

/-- C7: path derivation on `https://example.com:8080/a/b/c.html` yields the
directory `example.com_8080/a/b` (the authority with `:` replaced by `_` as
a single directory name, then the path segments except the last) and the
stem `c`; on the bare domain `https://example.com` it yields the stem
`index` with no nested subdirectory under the domain directory. -/
theorem derivePath_examples :
    derivePath "https://example.com:8080/a/b/c.html" =
      (["example.com_8080", "a", "b"], "c") ∧
    joinSep (derivePath "https://example.com:8080/a/b/c.html").1 =
      "example.com_8080/a/b" ∧
    derivePath "https://example.com" = (["example.com"], "index") :=
  ⟨by decide, by decide, by decide⟩

/-- C3 counterexample: on `https://example.com/a.html.txt` the code removes
the non-trailing `.html` from the segment `a.html.txt` and derives the stem
`a.txt`, while the claimed trailing-suffix-only rule would leave
`a.html.txt` unchanged. -/
theorem deriveStem_not_suffix_only :
    (derivePath "https://example.com/a.html.txt").2 = "a.txt" ∧
    specStem "https://example.com/a.html.txt" = "a.html.txt" ∧
    (derivePath "https://example.com/a.html.txt").2 ≠
      specStem "https://example.com/a.html.txt" :=
  ⟨by decide, by decide, by decide⟩

/-- C3 (amended): for every URL the derived filename stem equals the last
non-empty path segment with every occurrence of `.html` removed and then
every occurrence of `.php` removed, defaulting to `index` when there is no
segment or the result is empty. -/
theorem deriveStem_replace_all (url : String) :
    (derivePath url).2 = amendedStem url := by
  unfold derivePath amendedStem
  dsimp only
  cases hsplit : (pySplit (urlparse url).path '/').filter (fun p => p ≠ "") with
  | nil => rfl
  | cons a l => rfl

/-- C4: `batch_save` given a dict with a `links` field behaves identically
to being given the list of that field's keys; given a dict without a
`links` field or any non-list, non-dict argument it returns the single
top-level error result, produces no per-URL outcome and leaves the
filesystem unchanged. -/
theorem batchSave_input_shapes (env : Env) (path : Option String)
    (fs : List (String × String)) :
    (∀ ks : List String,
      batch_save env (.dict (some ks)) path fs = batch_save env (.list ks) path fs) ∧
    batch_save env (.dict none) path fs = (.inputError inputErrorMsg, fs) ∧
    batch_save env .other path fs = (.inputError inputErrorMsg, fs) :=
  ⟨fun _ => rfl, rfl, rfl⟩

/-- C2: a per-URL document write never targets an existing path — the path
of a saved outcome was free in the filesystem the write started from, and
the resolved path is always free; probing goes `stem.md`, `stem_1.md`,
`stem_2.md`, … in increasing counter order, so writing the same derived
directory+stem three times yields exactly those three names. -/
theorem batchSave_no_overwrite :
    (∀ (env : Env) (base : String) (fs : List (String × String)) (url u p : String)
        (t : Option String),
      (processUrl env base fs url).1 = .saved u p t → fsHas fs p = false) ∧
    (∀ (fs : List (String × String)) (dir stem : String),
      fsHas fs (resolveCollision fs dir stem) = false) ∧
    (∀ (fs : List (String × String)) (dir stem w0 w1 : String),
      fsHas fs (pjoin2 dir (stem ++ ".md")) = false →
      fsHas fs (pjoin2 dir (stem ++ "_1.md")) = false →
      fsHas fs (pjoin2 dir (stem ++ "_2.md")) = false →
      resolveCollision fs dir stem = pjoin2 dir (stem ++ ".md") ∧
      resolveCollision ((pjoin2 dir (stem ++ ".md"), w0) :: fs) dir stem =
        pjoin2 dir (stem ++ "_1.md") ∧
      resolveCollision ((pjoin2 dir (stem ++ "_1.md"), w1) ::
          (pjoin2 dir (stem ++ ".md"), w0) :: fs) dir stem =
        pjoin2 dir (stem ++ "_2.md")) := by
  refine ⟨?_, ?_, ?_⟩
  · intro env base fs url u p t h
    rw [processUrl_saved_path env base fs url u p t h]
    exact resolveCollision_fresh fs (pjoin base (derivePath url).1) (derivePath url).2
  · intro fs dir stem
    exact resolveCollision_fresh fs dir stem
  · intro fs dir stem w0 w1 h0 h1 h2
    rw [← candidate_zero dir stem] at h0
    rw [← candidate_one dir stem] at h1
    rw [← candidate_two dir stem] at h2
    rw [← candidate_zero dir stem, ← candidate_one dir stem, ← candidate_two dir stem]
    refine ⟨resolveCollision_zero fs dir stem h0, ?_, ?_⟩
    · apply resolveCollision_find_eq _ _ _ 1
      · rw [fsHas_cons, decide_eq_false (candidate_ne dir stem (by omega)), Bool.false_or]
        exact h1
      · intro m hm
        have hm0 : m = 0 := by omega
        subst hm0
        rw [fsHas_cons]
        simp
    · apply resolveCollision_find_eq _ _ _ 2
      · rw [fsHas_cons, decide_eq_false (candidate_ne dir stem (by omega)), Bool.false_or,
          fsHas_cons, decide_eq_false (candidate_ne dir stem (by omega)), Bool.false_or]
        exact h2
      · intro m hm
        match m, hm with
        | 0, _ =>
          rw [fsHas_cons, fsHas_cons]
          simp
        | 1, _ =>
          rw [fsHas_cons]
          simp

/-- C2 witness: on an empty filesystem with directory `d` and stem `s`, the
three successive resolved paths are `d/s.md`, `d/s_1.md`, `d/s_2.md`. -/
theorem batchSave_no_overwrite_witness :
    fsHas [] (pjoin2 "d" ("s" ++ ".md")) = false ∧
    fsHas [] (pjoin2 "d" ("s" ++ "_1.md")) = false ∧
    fsHas [] (pjoin2 "d" ("s" ++ "_2.md")) = false ∧
    (resolveCollision [] "d" "s" = pjoin2 "d" ("s" ++ ".md") ∧
      resolveCollision [(pjoin2 "d" ("s" ++ ".md"), "w0")] "d" "s" =
        pjoin2 "d" ("s" ++ "_1.md") ∧
      resolveCollision [(pjoin2 "d" ("s" ++ "_1.md"), "w1"),
          (pjoin2 "d" ("s" ++ ".md"), "w0")] "d" "s" =
        pjoin2 "d" ("s" ++ "_2.md")) :=
  ⟨rfl, rfl, rfl, batchSave_no_overwrite.2.2 [] "d" "s" "w0" "w1" rfl rfl rfl⟩

/-- C5: for every structurally valid input the returned result is
`status: "success"` with `total_saved`/`total_errors` equal to the counts of
saved/error outcomes; the result is computed from the per-URL outcomes alone,
so no failure while building or writing the index can change it. -/
theorem batchSave_success_counts (env : Env) (input : BatchInput)
    (path : Option String) (fs : List (String × String)) (urls : List String)
    (h : normalizeInput input = .ok urls) :
    (batch_save env input path fs).1 =
      .success (processList env (basePathOf env path) fs urls).1 (basePathOf env path)
        ((processList env (basePathOf env path) fs urls).1.countP
          (fun r => r.statusStr = "saved"))
        ((processList env (basePathOf env path) fs urls).1.countP
          (fun r => r.statusStr = "error")) := by
  unfold batch_save
  rw [h]

/-- C5 witness: a two-URL batch (one failing, one succeeding) under `envA`. -/
theorem batchSave_success_counts_witness :
    normalizeInput (.list ["https://nope.com/q", "https://a.com/x"]) =
      .ok ["https://nope.com/q", "https://a.com/x"] ∧
    (batch_save envA (.list ["https://nope.com/q", "https://a.com/x"])
        (some "/out") []).1 =
      .success
        (processList envA (basePathOf envA (some "/out")) []
          ["https://nope.com/q", "https://a.com/x"]).1
        (basePathOf envA (some "/out"))
        ((processList envA (basePathOf envA (some "/out")) []
          ["https://nope.com/q", "https://a.com/x"]).1.countP
          (fun r => r.statusStr = "saved"))
        ((processList envA (basePathOf envA (some "/out")) []
          ["https://nope.com/q", "https://a.com/x"]).1.countP
          (fun r => r.statusStr = "error")) :=
  ⟨rfl, batchSave_success_counts envA (.list ["https://nope.com/q", "https://a.com/x"])
    (some "/out") [] ["https://nope.com/q", "https://a.com/x"] rfl⟩

/-- C1: `batch_save` produces exactly one outcome per URL in input order
(the outcomes' `url` fields are exactly the input list); an error outcome
(fetch/parse failure via the fetch oracle, or filesystem failure via the
write oracle) carries the failure's message, leaves the filesystem
untouched, and the remaining URLs are processed exactly as they would have
been without the failing one. -/
theorem batchSave_per_url_outcomes (env : Env) (base : String) :
    (∀ (path : Option String) (fs : List (String × String)) (urls : List String),
      (batch_save env (.list urls) path fs).1.processedList =
        (processList env (basePathOf env path) fs urls).1) ∧
    (∀ (urls : List String) (fs : List (String × String)),
      (processList env base fs urls).1.map SaveOutcome.url = urls) ∧
    (∀ (fs : List (String × String)) (u : String) (rest : List String),
      (processUrl env base fs u).1.statusStr = "error" →
      processList env base fs (u :: rest) =
        ((processUrl env base fs u).1 :: (processList env base fs rest).1,
         (processList env base fs rest).2)) ∧
    (∀ (fs : List (String × String)) (u e : String),
      env.fetch u = .error e → (processUrl env base fs u).1 = .error u e) ∧
    (∀ (fs : List (String × String)) (u e : String) (page : Page),
      env.fetch u = .ok page →
      env.writeErr (resolveCollision fs (pjoin base (derivePath u).1)
        (derivePath u).2) = some e →
      (processUrl env base fs u).1 = .error u e) := by
  refine ⟨fun path fs urls => rfl, processList_map_url env base, ?_, ?_, ?_⟩
  · intro fs u rest h
    rw [processList_cons, processUrl_error_state env base fs u h]
  · intro fs u e h
    rw [processUrl_fetch_error env base fs u e h]
  · intro fs u e page hf hw
    rw [processUrl_write_error env base fs u e page hf hw]

/-- C1 witness: under `envA`, `https://nope.com/q` fails to fetch with
`boom`; its outcome is the error outcome and the rest of the batch is
processed from the unchanged filesystem. -/
theorem batchSave_per_url_outcomes_witness :
    (processUrl envA "/out" [] "https://nope.com/q").1.statusStr = "error" ∧
    envA.fetch "https://nope.com/q" = .error "boom" ∧
    processList envA "/out" [] ["https://nope.com/q", "https://a.com/x"] =
      ((processUrl envA "/out" [] "https://nope.com/q").1 ::
        (processList envA "/out" [] ["https://a.com/x"]).1,
       (processList envA "/out" [] ["https://a.com/x"]).2) ∧
    (processUrl envA "/out" [] "https://nope.com/q").1 =
      .error "https://nope.com/q" "boom" :=
  ⟨rfl, rfl,
    (batchSave_per_url_outcomes envA "/out").2.2.1 [] "https://nope.com/q"
      ["https://a.com/x"] rfl,
    (batchSave_per_url_outcomes envA "/out").2.2.2.1 [] "https://nope.com/q" "boom" rfl⟩

/-- C9: calling `get_filepath` twice with no change to the configuration
environment (and no change to the working directory) returns the same
absolute path both times; the second call does not fail even though the
directory already exists, because the directory is created with
`exist_ok=True`. -/
theorem get_filepath_idempotent (env : ConfigEnv) (dirs dirs2 : List String)
    (p : String) (h : get_filepath env dirs = .ok (p, dirs2)) :
    get_filepath env dirs2 = .ok (p, dirs2) := by
  unfold get_filepath makedirs at h ⊢
  dsimp only at h ⊢
  simp only [Bool.not_true, Bool.and_false, Bool.false_eq_true, if_false,
    Except.ok.injEq, Prod.mk.injEq] at h ⊢
  obtain ⟨hp, hd⟩ := h
  by_cases hc : dirs.contains (match env.output_path with
      | some p => if p ≠ "" then p else fallbackPath env
      | none => fallbackPath env) = true
  · rw [if_pos hc] at hd
    subst hd
    rw [if_pos hc]
    exact ⟨hp, rfl⟩
  · rw [if_neg hc] at hd
    subst hd
    rw [if_pos (by simp)]
    exact ⟨hp, rfl⟩

/-- C9 witness: with `OUTPUT_PATH=work/out` and working directory `/home`,
the first call creates the directory and returns `/home/work/out`; the
second call returns the same pair. -/
theorem get_filepath_idempotent_witness :
    get_filepath ⟨some "work/out", .error "no config", "/home"⟩ [] =
      .ok ("/home/work/out", ["work/out"]) ∧
    get_filepath ⟨some "work/out", .error "no config", "/home"⟩ ["work/out"] =
      .ok ("/home/work/out", ["work/out"]) :=
  ⟨rfl,
   get_filepath_idempotent ⟨some "work/out", .error "no config", "/home"⟩ []
     ["work/out"] "/home/work/out" rfl⟩

/-- C10 counterexample: a fetched document with an *empty* `<title>` element
(`some ⟨false, none⟩`: a childless, hence falsy, bs4 Tag with `.string =
None`).  The code's `soup.title.string if soup.title else filename` takes
the `else` branch on a falsy Tag, so the derived stem `p` is used as the
title — not the null string content the claim predicts. -/
theorem title_empty_element_counterexample :
    pageEmptyTitle.title = some ⟨false, none⟩ ∧
    (processUrl envEmptyTitle "/out" [] "https://example.com/p.html").1 =
      .saved "https://example.com/p.html" "/out/example.com/p.md" (some "p") ∧
    (some "p" : Option String) ≠ none := by
  refine ⟨rfl, ?_, by simp⟩
  rw [processUrl_write_ok envEmptyTitle "/out" [] "https://example.com/p.html"
    pageEmptyTitle rfl rfl,
    resolveCollision_zero [] (pjoin "/out" (derivePath "https://example.com/p.html").1)
      (derivePath "https://example.com/p.html").2 rfl]
  decide

/-- C10 (amended): the null `.string` of a *truthy* title element (one with
children) is propagated as the title into the outcome and into the metadata
preamble (where it renders as `None`); the stem fallback applies exactly
when the document has no title element or its title element is falsy
(childless, e.g. an empty `<title>` tag). -/
theorem batchSave_title_cases (env : Env) (base : String)
    (fs : List (String × String)) (url : String) (page : Page)
    (hf : env.fetch url = .ok page)
    (hw : env.writeErr (resolveCollision fs (pjoin base (derivePath url).1)
      (derivePath url).2) = none) :
    (page.title = some ⟨true, none⟩ →
      (processUrl env base fs url).1 =
        .saved url (resolveCollision fs (pjoin base (derivePath url).1)
          (derivePath url).2) none ∧
      ((processUrl env base fs url).2.headD ("", "")).2 =
        metadataBlock none url (urlparse url).netloc (descriptionOf page.descTag)
          env.now ++ page.markdown) ∧
    (∀ s, page.title = some ⟨true, some s⟩ →
      (processUrl env base fs url).1 =
        .saved url (resolveCollision fs (pjoin base (derivePath url).1)
          (derivePath url).2) (some s)) ∧
    (page.title = none →
      (processUrl env base fs url).1 =
        .saved url (resolveCollision fs (pjoin base (derivePath url).1)
          (derivePath url).2) (some (derivePath url).2)) ∧
    (∀ os, page.title = some ⟨false, os⟩ →
      (processUrl env base fs url).1 =
        .saved url (resolveCollision fs (pjoin base (derivePath url).1)
          (derivePath url).2) (some (derivePath url).2)) ∧
    metadataBlock none "https://e.com/p" "e.com" "" "2024-01-01" =
      "---\ntitle: None\nurl: https://e.com/p\ndomain: e.com\ndescription: \ndate_saved: 2024-01-01\n---\n\n" := by
  rw [processUrl_write_ok env base fs url page hf hw]
  refine ⟨fun ht => ?_, fun s ht => ?_, fun ht => ?_, fun os ht => ?_, by decide⟩
  · rw [ht]
    exact ⟨rfl, rfl⟩
  · rw [ht]
    rfl
  · rw [ht]
    rfl
  · rw [ht]
    rfl

theorem lookupD_cons (e : String × String) (d : List (String × String)) (q : String) :
    lookupD (e :: d) q = if e.1 = q then some e.2 else lookupD d q := by
  unfold lookupD
  by_cases he : e.1 = q
  · rw [List.find?_cons_of_pos _ (by simp [he]), if_pos he]
    rfl
  · rw [List.find?_cons_of_neg _ (by simp [he]), if_neg he]

theorem lookup_map_other (d : List (String × String)) (k v q : String) (hq : q ≠ k) :
    lookupD (d.map (fun e => if e.1 = k then (k, v) else e)) q = lookupD d q := by
  induction d with
  | nil => rfl
  | cons e rest ih =>
    rw [List.map_cons]
    by_cases he : e.1 = k
    · rw [if_pos he, lookupD_cons, lookupD_cons,
        if_neg (show ¬((k, v).1 = q) from fun h => hq h.symm),
        if_neg (show ¬(e.1 = q) from fun h => hq (he.symm.trans h).symm)]
      exact ih
    · rw [if_neg he, lookupD_cons, lookupD_cons]
      by_cases heq : e.1 = q
      · rw [if_pos heq, if_pos heq]
      · rw [if_neg heq, if_neg heq]
        exact ih

theorem lookup_map_update (d : List (String × String)) (k v q : String)
    (hany : d.any (fun e => e.1 = k) = true) :
    lookupD (d.map (fun e => if e.1 = k then (k, v) else e)) q =
      if q = k then some v else lookupD d q := by
  induction d with
  | nil => simp at hany
  | cons e rest ih =>
    rw [List.map_cons]
    by_cases he : e.1 = k
    · rw [if_pos he, lookupD_cons]
      by_cases hq : q = k
      · rw [if_pos (show (k, v).1 = q from hq.symm), if_pos hq]
      · rw [if_neg (show ¬((k, v).1 = q) from fun h => hq h.symm), if_neg hq,
          lookupD_cons, if_neg (show ¬(e.1 = q) from fun h => hq (he.symm.trans h).symm)]
        exact lookup_map_other rest k v q hq
    · rw [if_neg he, lookupD_cons, lookupD_cons]
      have hrest : rest.any (fun e => e.1 = k) = true := by
        simp only [List.any_cons, he, decide_False, Bool.false_or] at hany
        exact hany
      by_cases heq : e.1 = q
      · rw [if_pos heq, if_pos heq, if_neg (show ¬(q = k) from fun h => he (heq.trans h))]
      · rw [if_neg heq, if_neg heq]
        exact ih hrest

theorem dictInsert_lookup (d : List (String × String)) (k v q : String) :
    lookupD (dictInsert d k v) q = if q = k then some v else lookupD d q := by
  unfold dictInsert
  by_cases hany : d.any (fun e => e.1 = k) = true
  · rw [if_pos hany]
    exact lookup_map_update d k v q hany
  · rw [if_neg hany]
    unfold lookupD
    rw [List.find?_append]
    by_cases hq : q = k
    · subst hq
      have hnone : d.find? (fun e => decide (e.1 = q)) = none := by
        rw [List.find?_eq_none]
        intro x hx
        simp only [decide_eq_true_eq]
        intro hxq
        exact hany (List.any_eq_true.mpr ⟨x, hx, by simp [hxq]⟩)
      rw [hnone, if_pos rfl]
      simp
    · rw [if_neg hq]
      have h2 : List.find? (fun e => decide (e.1 = q)) [(k, v)] = none := by
        have : ¬(k = q) := fun h => hq h.symm
        simp [this]
      rw [h2, Option.or_none]

theorem linksOf_append_singleton (xs : List (String × String)) (a : String × String) :
    linksOf (xs ++ [a]) =
      if isEligible a.1 = true then dictInsert (linksOf xs) a.1 (linkValue a.1 a.2)
      else linksOf xs := by
  unfold linksOf
  rw [List.foldl_append]
  rfl

theorem linksOf_lookup (anchors : List (String × String)) (href : String) :
    lookupD (linksOf anchors) href =
      if isEligible href = true then
        ((anchors.filter (fun a => a.1 = href)).getLast?).map
          (fun a => linkValue href a.2)
      else none := by
  induction anchors using List.reverseRecOn with
  | nil =>
    by_cases h : isEligible href = true <;> simp [linksOf, lookupD, h]
  | append_singleton xs a ih =>
    rw [linksOf_append_singleton, List.filter_append]
    by_cases hah : a.1 = href
    · subst hah
      have hfa : List.filter (fun x => decide (x.1 = a.1)) [a] = [a] := by simp
      rw [hfa, List.getLast?_concat]
      by_cases hel : isEligible a.1 = true
      · rw [if_pos hel, if_pos hel, dictInsert_lookup, if_pos rfl]
        rfl
      · rw [if_neg hel, if_neg hel, ih, if_neg hel]
    · have hfa : List.filter (fun x => decide (x.1 = href)) [a] = [] := by simp [hah]
      rw [hfa, List.append_nil]
      by_cases hel : isEligible a.1 = true
      · rw [if_pos hel, dictInsert_lookup, if_neg (fun h => hah h.symm)]
        exact ih
      · rw [if_neg hel]
        exact ih

/-- C6: the mapping built by `map_links` contains exactly the hrefs that
begin with `http` and contain neither excluded video-hosting fragment; each
surviving href maps to its anchor's trimmed text, defaulting to the href when
the trimmed text is empty, and when several anchors share an href, the
last-parsed anchor's value wins.  A fetch/parse failure is returned as an
error result. -/
theorem map_links_characterization :
    (∀ e, map_links (.error e) = .error e) ∧
    (∀ anchors, map_links (.ok anchors) = .success (linksOf anchors)) ∧
    (∀ (anchors : List (String × String)) (href : String),
      lookupD (linksOf anchors) href =
        if isEligible href = true then
          ((anchors.filter (fun a => a.1 = href)).getLast?).map
            (fun a => linkValue href a.2)
        else none) :=
  ⟨fun _ => rfl, fun _ => rfl, linksOf_lookup⟩

/-- C10 (amended) witness: a page whose title element is truthy with a null
`.string` yields a saved outcome with a `None` title. -/
theorem batchSave_title_cases_witness :
    envNullTitle.fetch "https://e.com/x" = .ok pageNullTitle ∧
    envNullTitle.writeErr (resolveCollision []
      (pjoin "/out" (derivePath "https://e.com/x").1)
      (derivePath "https://e.com/x").2) = none ∧
    (pageNullTitle.title = some ⟨true, none⟩ →
      (processUrl envNullTitle "/out" [] "https://e.com/x").1 =
        .saved "https://e.com/x" (resolveCollision []
          (pjoin "/out" (derivePath "https://e.com/x").1)
          (derivePath "https://e.com/x").2) none ∧
      ((processUrl envNullTitle "/out" [] "https://e.com/x").2.headD ("", "")).2 =
        metadataBlock none "https://e.com/x" (urlparse "https://e.com/x").netloc
          (descriptionOf pageNullTitle.descTag) envNullTitle.now ++
          pageNullTitle.markdown) :=
  ⟨rfl, rfl,
   (batchSave_title_cases envNullTitle "/out" [] "https://e.com/x" pageNullTitle
     rfl rfl).1⟩

theorem firstSeen_mem : ∀ (ds : List String) (x : String),
    x ∈ firstSeen ds ↔ x ∈ ds := by
  intro ds
  induction ds using firstSeen.induct with
  | case1 => simp [firstSeen]
  | case2 d rest ih =>
    intro x
    rw [firstSeen]
    simp only [List.mem_cons]
    constructor
    · rintro (rfl | hx)
      · exact Or.inl rfl
      · have := (ih x).mp hx
        rw [List.mem_filter] at this
        exact Or.inr this.1
    · rintro (rfl | hx)
      · exact Or.inl rfl
      · by_cases hxd : x = d
        · exact Or.inl hxd
        · refine Or.inr ((ih x).mpr ?_)
          rw [List.mem_filter]
          exact ⟨hx, by simp [hxd]⟩

theorem firstSeen_nodup : ∀ ds : List String, (firstSeen ds).Nodup := by
  intro ds
  induction ds using firstSeen.induct with
  | case1 => simp [firstSeen]
  | case2 d rest ih =>
    rw [firstSeen]
    refine List.nodup_cons.mpr ⟨?_, ih⟩
    intro hmem
    have := (firstSeen_mem _ d).mp hmem
    rw [List.mem_filter] at this
    simp at this

theorem firstSeen_append : ∀ (ds : List String) (d : String),
    firstSeen (ds ++ [d]) = if d ∈ ds then firstSeen ds else firstSeen ds ++ [d] := by
  intro ds
  induction ds using firstSeen.induct with
  | case1 =>
    intro d
    simp [firstSeen]
  | case2 x rest ih =>
    intro d
    rw [List.cons_append, firstSeen, List.filter_append]
    by_cases hdx : d = x
    · subst hdx
      have hf : List.filter (fun y => y ≠ d) [d] = [] := by simp
      rw [hf, List.append_nil, if_pos (List.mem_cons_self d rest)]
      conv_rhs => rw [firstSeen]
    · have hf : List.filter (fun y => y ≠ x) [d] = [d] := by simp [hdx]
      rw [hf, ih d]
      by_cases hdr : d ∈ rest.filter (fun y => y ≠ x)
      · rw [if_pos hdr]
        have hdrest : d ∈ x :: rest := by
          rw [List.mem_filter] at hdr
          exact List.mem_cons_of_mem x hdr.1
        rw [if_pos hdrest]
        conv_rhs => rw [firstSeen]
      · rw [if_neg hdr]
        have hdrest : ¬ d ∈ x :: rest := by
          intro hc
          rcases List.mem_cons.mp hc with h1 | h1
          · exact hdx h1
          · exact hdr (List.mem_filter.mpr ⟨h1, by simp [hdx]⟩)
        rw [if_neg hdrest]
        conv_rhs => rw [firstSeen]
        rw [List.cons_append]

theorem addGroup_map_not_mem (ks : List String) (sel : String → List SaveOutcome)
    (d : String) (r : SaveOutcome) (hmem : d ∉ ks) :
    addGroup d r (ks.map (fun k => (k, sel k))) =
      ks.map (fun k => (k, sel k)) ++ [(d, [r])] := by
  induction ks with
  | nil => rfl
  | cons k rest ih =>
    rw [List.map_cons]
    simp only [addGroup]
    have hk : ¬((k, sel k).1 = d) := by
      intro h
      exact hmem (by rw [← h]; exact List.mem_cons_self k rest)
    rw [if_neg hk, ih (fun hc => hmem (List.mem_cons_of_mem k hc)), List.cons_append]

theorem addGroup_map_mem (ks : List String) (sel : String → List SaveOutcome)
    (d : String) (r : SaveOutcome) (hmem : d ∈ ks) (hnd : ks.Nodup) :
    addGroup d r (ks.map (fun k => (k, sel k))) =
      ks.map (fun k => (k, if k = d then sel k ++ [r] else sel k)) := by
  induction ks with
  | nil => cases hmem
  | cons k rest ih =>
    rw [List.map_cons, List.map_cons]
    simp only [addGroup]
    by_cases hk : k = d
    · subst hk
      rw [if_pos rfl, if_pos rfl]
      congr 1
      apply List.map_congr_left
      intro x hx
      have hxk : ¬(x = k) := fun he => (List.nodup_cons.mp hnd).1 (he ▸ hx)
      rw [if_neg hxk]
    · have hk2 : ¬((k, sel k).1 = d) := hk
      rw [if_neg hk2, if_neg hk]
      have hmem2 : d ∈ rest := by
        rcases List.mem_cons.mp hmem with h | h
        · exact absurd h.symm hk
        · exact h
      rw [ih hmem2 (List.nodup_cons.mp hnd).2]

theorem groupByDomain_append (rs : List SaveOutcome) (r : SaveOutcome) :
    groupByDomain (rs ++ [r]) =
      if r.statusStr = "saved" then addGroup r.domain r (groupByDomain rs)
      else groupByDomain rs := by
  unfold groupByDomain
  rw [List.foldl_append]
  rfl

theorem savedOnly_append (rs : List SaveOutcome) (r : SaveOutcome) :
    savedOnly (rs ++ [r]) =
      savedOnly rs ++ if r.statusStr = "saved" then [r] else [] := by
  unfold savedOnly
  rw [List.filter_append]
  congr 1
  by_cases h : r.statusStr = "saved" <;> simp [h]

theorem groupByDomain_eq_groupSpec : ∀ rs : List SaveOutcome,
    groupByDomain rs = groupSpec rs := by
  intro rs
  induction rs using List.reverseRecOn with
  | nil =>
    have h1 : firstSeen [] = [] := by rw [firstSeen]
    simp [groupByDomain, groupSpec, savedOnly, h1]
  | append_singleton xs r ih =>
    rw [groupByDomain_append, ih]
    unfold groupSpec
    rw [savedOnly_append xs r]
    by_cases hs : r.statusStr = "saved"
    · rw [if_pos hs, if_pos hs, List.map_append]
      have hmr : List.map SaveOutcome.domain [r] = [r.domain] := rfl
      rw [hmr, firstSeen_append]
      by_cases hd : r.domain ∈ (savedOnly xs).map SaveOutcome.domain
      · rw [if_pos hd]
        refine (addGroup_map_mem _
          (fun k => (savedOnly xs).filter (fun x => x.domain = k)) r.domain r
          ((firstSeen_mem _ r.domain).mpr hd) (firstSeen_nodup _)).trans ?_
        apply List.map_congr_left
        intro d hdmem
        dsimp only
        rw [List.filter_append]
        by_cases hddr : d = r.domain
        · have hfr : List.filter (fun x => decide (x.domain = d)) [r] = [r] := by
            simp [hddr]
          rw [if_pos hddr, hfr]
        · have hne : ¬(r.domain = d) := fun h => hddr h.symm
          have hfr : List.filter (fun x => decide (x.domain = d)) [r] = [] := by
            simp [hne]
          rw [if_neg hddr, hfr, List.append_nil]
      · rw [if_neg hd]
        refine (addGroup_map_not_mem _
          (fun k => (savedOnly xs).filter (fun x => x.domain = k)) r.domain r
          (fun hc => hd ((firstSeen_mem _ r.domain).mp hc))).trans ?_
        rw [List.map_append]
        congr 1
        · apply List.map_congr_left
          intro d hdmem
          dsimp only
          rw [List.filter_append]
          have hne : ¬(r.domain = d) :=
            fun he => hd (he ▸ (firstSeen_mem _ d).mp hdmem)
          have hfr : List.filter (fun x => decide (x.domain = d)) [r] = [] := by
            simp [hne]
          rw [hfr, List.append_nil]
        · simp only [List.map_cons, List.map_nil, List.filter_append]
          have h1 : List.filter (fun x => decide (x.domain = r.domain)) (savedOnly xs) = [] := by
            rw [List.filter_eq_nil_iff]
            intro x hx
            simp only [decide_eq_true_eq]
            exact fun he => hd (List.mem_map.mpr ⟨x, hx, he⟩)
          have h2 : List.filter (fun x => decide (x.domain = r.domain)) [r] = [r] := by simp
          rw [h1, h2, List.nil_append]
    · rw [if_neg hs, if_neg hs, List.append_nil]

/-- C8: the grouping loop of the index builder equals its closed form —
only saved outcomes appear, grouped by the domain parsed from each outcome's
URL in first-seen order with each domain's outcomes in original relative
order — and the index document is the fixed heading followed by one rendered
section per group (a domain heading, then one `- [title](path relative to
the output root)` line per document). -/
theorem buildIndex_grouping (results : List SaveOutcome) (base : String) :
    groupByDomain results = groupSpec results ∧
    buildIndex results base =
      "# Crawled Content Index\n\n" ++
        String.join ((groupSpec results).map (renderGroup base)) ∧
    buildIndex
      [.saved "https://a.com/x" "/out/a.com/x.md" (some "X"),
       .error "https://b.com/z" "boom",
       .saved "https://a.com/y" "/out/a.com/y.md" (some "Y")] "/out" =
      "# Crawled Content Index\n\n\n## a.com\n\n- [X](a.com/x.md)\n- [Y](a.com/y.md)\n" := by
  refine ⟨groupByDomain_eq_groupSpec results, ?_, by decide⟩
  unfold buildIndex
  rw [groupByDomain_eq_groupSpec results]

end Crawl
